import Mathlib

/-!
Shallow embedding of the `scp` case store and search subsystem
(`src/scp/models.py`, `src/scp/memory.py`, `src/scp/search.py`,
`src/scp/core.py`), together with theorems settling the claims about it.

Conventions of the embedding:
* Python `dict` (which preserves insertion order, updates values in place
  without moving the key, and appends new keys at the end) is modelled as an
  association list with `dictInsert` / `dictGet` / `dictRemove`.
* `datetime.utcnow()` is modelled by an explicit `now : Nat` argument threaded
  into every mutating operation.
* Floats are modelled as `Rat`.
* The external sentence-transformer encoder and the faiss `IndexFlatIP` are
  external collaborators; the encoder is an abstract parameter
  `encode : String -> List Rat` of the engine state and faiss exact
  inner-product search is modelled by `ipSearch` (top-k by inner product,
  scores descending), matching the library contract the code relies on.
* Fields of `SupportCase` that no modelled operation reads or writes
  (customer, product, metrics, custom_fields, escalation flags, URIs, ...)
  are omitted: every modelled operation would carry them verbatim.
-/

namespace SCP

/-- Embedding of `models.py` `Status` (case status values). -/
inductive Status
  | open_
  | in_progress
  | pending_customer
  | pending_microsoft
  | resolved
  | closed
deriving DecidableEq

/-- Embedding of `models.py` `Priority` (case priority levels). -/
inductive Priority
  | critical
  | high
  | medium
  | low
deriving DecidableEq

/-- Embedding of `models.py` `CaseTag`: name, confidence, source. -/
structure CaseTag where
  name : String
  confidence : Rat
  source : String
deriving DecidableEq

/-- Embedding of `models.py` `LogEntry`. -/
structure LogEntry where
  timestamp : Nat := 0
  content : String
  source : Option String := none
  level : Option String := none
deriving DecidableEq

/-- Embedding of `models.py` `SupportCase` (the fields read or written by the modelled
operations; the remaining metadata fields are carried verbatim by every
operation and are omitted). Defaults mirror the pydantic field defaults. -/
structure SupportCase where
  case_id : String
  title : String
  status : Status := .open_
  priority : Priority := .medium
  created_at : Nat := 0
  updated_at : Nat := 0
  symptoms : List String := []
  error_messages : List String := []
  reproduction_steps : List String := []
  notes : List String := []
  root_cause : Option String := none
  solution : Option String := none
  workaround : Option String := none
  logs : List LogEntry := []
  tags : List CaseTag := []
  description : String := ""
deriving DecidableEq

/-- Embedding of `SupportCase.get_text_content`: join the textual fields with spaces,
dropping falsy (empty) parts, as `" ".join(filter(None, content_parts))`. -/
def SupportCase.get_text_content (c : SupportCase) : String :=
  let content_parts : List String :=
    [c.title,
     c.description,
     String.intercalate " " c.symptoms,
     String.intercalate " " c.error_messages,
     String.intercalate " " c.reproduction_steps,
     String.intercalate " " c.notes]
    ++ (match c.root_cause with | some s => [s] | none => [])
    ++ (match c.solution with | some s => [s] | none => [])
    ++ (match c.workaround with | some s => [s] | none => [])
    ++ c.logs.map (fun l => l.content)
    ++ c.tags.map (fun t => t.name)
  String.intercalate " " (content_parts.filter (fun s => s ≠ ""))

/-- Embedding of `SupportCase.add_tag`: remove any existing tag with the same name, then
append the new tag. -/
def SupportCase.add_tag (c : SupportCase) (name : String)
    (confidence : Rat := 1) (source : String := "manual") : SupportCase :=
  { c with tags := c.tags.filter (fun t => t.name ≠ name)
                     ++ [{ name := name, confidence := confidence, source := source }] }

/-! ## Model of Python `dict` (insertion-ordered, in-place value update) -/

/-- Insert-or-update: an existing key keeps its position and gets the new
value; a new key is appended at the end (Python dict semantics). -/
def dictInsert {V : Type} (k : String) (v : V) : List (String × V) → List (String × V)
  | [] => [(k, v)]
  | (k', v') :: rest =>
      if k' = k then (k, v) :: rest else (k', v') :: dictInsert k v rest

/-- Key lookup (`dict.get`). -/
def dictGet {V : Type} : List (String × V) → String → Option V
  | [], _ => none
  | (k', v) :: rest, k => if k' = k then some v else dictGet rest k

/-- Key removal (`del dict[k]`; on the reachable, duplicate-free states this
removes exactly the one entry holding the key). -/
def dictRemove {V : Type} (d : List (String × V)) (k : String) : List (String × V) :=
  d.filter (fun p => p.1 ≠ k)

/-- The keys, in insertion order. -/
def dictKeys {V : Type} (d : List (String × V)) : List String :=
  d.map (fun p => p.1)

/-! ## Stable descending sort (Python `list.sort(key=..., reverse=True)`) -/

/-- Insert `x` before the first element with a strictly smaller key
(so elements with equal keys keep their original relative order). -/
def insertDesc {α : Type} (key : α → Rat) (x : α) : List α → List α
  | [] => [x]
  | y :: ys => if key y < key x then x :: y :: ys else y :: insertDesc key x ys

/-- Stable sort, descending by `key`. -/
def sortDesc {α : Type} (key : α → Rat) (l : List α) : List α :=
  l.foldl (fun acc x => insertDesc key x acc) []

theorem mem_insertDesc {α : Type} {key : α → Rat} {x z : α} {l : List α} :
    z ∈ insertDesc key x l ↔ z = x ∨ z ∈ l := by
  induction l with
  | nil => simp [insertDesc]
  | cons y ys ih =>
      simp only [insertDesc]
      split
      · simp
      · simp [ih]
        tauto

theorem pairwise_insertDesc {α : Type} {key : α → Rat} {x : α} {l : List α}
    (h : l.Pairwise (fun a b => key b ≤ key a)) :
    (insertDesc key x l).Pairwise (fun a b => key b ≤ key a) := by
  induction l with
  | nil => simp [insertDesc]
  | cons y ys ih =>
      rcases List.pairwise_cons.1 h with ⟨hy, hys⟩
      simp only [insertDesc]
      split
      · refine List.pairwise_cons.2 ⟨?_, h⟩
        intro b hb
        rcases List.mem_cons.1 hb with rfl | hb
        · exact le_of_lt (by assumption)
        · exact (hy b hb).trans (le_of_lt (by assumption))
      · refine List.pairwise_cons.2 ⟨?_, ih hys⟩
        intro b hb
        rcases mem_insertDesc.1 hb with rfl | hb
        · exact not_lt.1 (by assumption)
        · exact hy b hb

theorem pairwise_sortDesc {α : Type} (key : α → Rat) (l : List α) :
    (sortDesc key l).Pairwise (fun a b => key b ≤ key a) := by
  suffices h : ∀ acc : List α, acc.Pairwise (fun a b => key b ≤ key a) →
      (l.foldl (fun acc x => insertDesc key x acc) acc).Pairwise
        (fun a b => key b ≤ key a) by
    exact h [] (by simp)
  induction l with
  | nil => intro acc hacc; simpa using hacc
  | cons y ys ih =>
      intro acc hacc
      exact ih _ (pairwise_insertDesc hacc)

theorem mem_sortDesc {α : Type} {key : α → Rat} {l : List α} {z : α} :
    z ∈ sortDesc key l ↔ z ∈ l := by
  suffices h : ∀ acc : List α,
      (z ∈ l.foldl (fun acc x => insertDesc key x acc) acc ↔ z ∈ acc ∨ z ∈ l) by
    simpa using h []
  induction l with
  | nil => intro acc; simp
  | cons y ys ih =>
      intro acc
      simp only [List.foldl_cons, ih, mem_insertDesc, List.mem_cons]
      tauto

/-! ## `memory.py` `MemoryStore` -/

/-- The store's underlying map `self._cases` (the lock serializes each
operation; operations are modelled as atomic functions on the map). -/
abbrev Store := List (String × SupportCase)

/-- Embedding of `MemoryStore.add_case`: stamp `updated_at = utcnow()`, then
`self._cases[case.case_id] = case`. -/
def addCase (store : Store) (c : SupportCase) (now : Nat) : Store :=
  dictInsert c.case_id { c with updated_at := now } store

/-- Embedding of `MemoryStore.get_case`. -/
def getCase (store : Store) (case_id : String) : Option SupportCase :=
  dictGet store case_id

/-- Embedding of `MemoryStore.get_all_cases` (`list(self._cases.values())`). -/
def getAllCases (store : Store) : List SupportCase :=
  store.map (fun p => p.2)

/-- Embedding of `MemoryStore.delete_case`: remove the key if present, report success. -/
def deleteCaseStore (store : Store) (case_id : String) : Store × Bool :=
  if (dictGet store case_id).isSome then (dictRemove store case_id, true)
  else (store, false)

/-- Python `str.lower()` (character-wise lowercasing). -/
def lowerStr (s : String) : String := ⟨s.data.map Char.toLower⟩

/-- Whether the first list starts with the second. -/
def listHasPre : List Char → List Char → Bool
  | _, [] => true
  | [], _ :: _ => false
  | c :: cs, p :: ps => c = p && listHasPre cs ps

/-- Whether `pat` occurs as a contiguous sublist of the first list. -/
def containsSub : List Char → List Char → Bool
  | [], pat => pat.isEmpty
  | c :: rest, pat => listHasPre (c :: rest) pat || containsSub rest pat

/-- Python substring test `pat in s`. -/
def strContains (s pat : String) : Bool :=
  containsSub s.data pat.data

/-- Python `str.split()` with no separator: split on runs of whitespace,
producing no empty pieces. -/
def pySplitAux : List Char → List Char → List String
  | [], cur => if cur.isEmpty then [] else [⟨cur.reverse⟩]
  | c :: rest, cur =>
      if c.isWhitespace then
        if cur.isEmpty then pySplitAux rest []
        else ⟨cur.reverse⟩ :: pySplitAux rest []
      else pySplitAux rest (c :: cur)

def pySplit (s : String) : List String := pySplitAux s.data []

/-- Python `not s.strip()`: the string is empty or all whitespace. -/
def isBlank (s : String) : Bool := s.data.all Char.isWhitespace

/-- The Python pattern `if some_list: cases = [c for c in cases if pred]`:
a filter guarded by the truthiness of an optional list, so `None` and the
empty list both disable the predicate. -/
def truthyFilter {β : Type} (o : Option (List β))
    (p : List β → SupportCase → Bool) (cases : List SupportCase) :
    List SupportCase :=
  match o with
  | some l => if l.isEmpty then cases else cases.filter (p l)
  | none => cases

/-- Embedding of `MemoryStore.search_cases`: the structured-filter pipeline (id allowlist,
status, priority — each applied only when truthy — then, for a nonempty
`query`, keep the cases whose lowercased text content contains the lowercased
query). -/
def memorySearch (store : Store) (query : String)
    (status_filter : Option (List Status))
    (priority_filter : Option (List Priority))
    (case_ids : Option (List String)) : List SupportCase :=
  let cases := getAllCases store
  let cases := truthyFilter case_ids
    (fun ids c => decide (c.case_id ∈ ids)) cases
  let cases := truthyFilter status_filter
    (fun sts c => decide (c.status ∈ sts)) cases
  let cases := truthyFilter priority_filter
    (fun prs c => decide (c.priority ∈ prs)) cases
  let cases :=
    if query = "" then cases
    else cases.filter (fun c =>
      strContains (lowerStr c.get_text_content) (lowerStr query))
  cases

/-- A record of a JSON import batch. JSON decoding and pydantic validation are
external plumbing: a record is `some c` when `SupportCase(**case_data)`
validates and yields `c`, and `none` when it raises (a malformed record). -/
abbrev Record := Option SupportCase

/-- Embedding of `MemoryStore.export_to_json`, restricted to its persisted-snapshot
content: the list of all stored case records, in store order. -/
def snapshot (store : Store) : List Record :=
  store.map (fun p => some p.2)

/-- Embedding of `MemoryStore.import_from_json`: each record that validates is stored via
`add_case` and counted; a record that fails to validate is skipped. Returns
the updated store and the imported count. -/
def importRecords (store : Store) (records : List Record) (now : Nat) :
    Store × Nat :=
  match records with
  | [] => (store, 0)
  | none :: rest => importRecords store rest now
  | some c :: rest =>
      let r := importRecords (addCase store c now) rest now
      (r.1, r.2 + 1)

/-! ## `search.py` search engines -/

/-- Lowercase, split on whitespace, take the set
(`set(text.lower().split())`). -/
def tokens (s : String) : Finset String :=
  (pySplit (lowerStr s)).toFinset

/-- Token-set Jaccard similarity, the score formula of the lexical engine
(`|intersection| / |union|`). -/
def jaccard (a b : Finset String) : Rat :=
  ((a ∩ b).card : Rat) / ((a ∪ b).card : Rat)

/-- Embedding of `search.py` `SimpleSearchEngine` state: `self.cases`. -/
abbrev SimpleEngine := List (String × SupportCase)

/-- Embedding of `SimpleSearchEngine.add_case` / `update_case`
(`self.cases[case.case_id] = case`). -/
def simpleAddCase (eng : SimpleEngine) (c : SupportCase) : SimpleEngine :=
  dictInsert c.case_id c eng

/-- Embedding of `SimpleSearchEngine.remove_case`. -/
def simpleRemoveCase (eng : SimpleEngine) (case_id : String) :
    SimpleEngine × Bool :=
  if (dictGet eng case_id).isSome then (dictRemove eng case_id, true)
  else (eng, false)

/-- Embedding of `SimpleSearchEngine.search`: Jaccard-score every indexed case against the
query token set, keep scores above the threshold, stable-sort descending,
truncate to `k`. -/
def simpleSearch (eng : SimpleEngine) (query : String) (k : Nat)
    (threshold : Rat) : List (String × Rat) :=
  let query_words := tokens query
  if query_words = ∅ then []
  else
    let results := eng.filterMap (fun p =>
      let case_words := tokens p.2.get_text_content
      let i := (query_words ∩ case_words).card
      let u := (query_words ∪ case_words).card
      if 0 < u then
        let score : Rat := (i : Rat) / (u : Rat)
        if threshold ≤ score then some (p.1, score) else none
      else none)
    (sortDesc (fun r => r.2) results).take k

/-- Embedding of `SimpleSearchEngine.find_similar_cases`: search on the case's own text
with `k + 1`, then drop the case's own id. -/
def simpleFindSimilar (eng : SimpleEngine) (c : SupportCase) (k : Nat)
    (threshold : Rat) : List (String × Rat) :=
  (simpleSearch eng c.get_text_content (k + 1) threshold).filter
    (fun r => r.1 ≠ c.case_id)

/-- Embedding of `search.py` `VectorSearchEngine` state: the external encoder, the faiss
vector table, and the parallel `case_ids` list. -/
structure VectorEngine where
  encode : String → List Rat
  vectors : List (List Rat)
  case_ids : List String

/-- Inner product of two embedding vectors. -/
def innerProduct (u v : List Rat) : Rat :=
  (List.zipWith (fun a b => a * b) u v).sum

/-- Embedding of `VectorSearchEngine._encode_text`: empty (whitespace-only) text is
replaced by the sentinel `"empty case"` before encoding. -/
def encodeText (e : VectorEngine) (text : String) : List Rat :=
  if isBlank text then e.encode "empty case" else e.encode text

/-- Embedding of `VectorSearchEngine.add_case`: append the embedding and the case id. -/
def vecAddCase (e : VectorEngine) (c : SupportCase) : VectorEngine :=
  { e with vectors := e.vectors ++ [encodeText e c.get_text_content],
           case_ids := e.case_ids ++ [c.case_id] }

/-- Embedding of `VectorSearchEngine.remove_case`: a logical no-op — it only reports
whether the id is indexed and leaves the index unchanged (faiss supports no
in-place deletion; a rebuild is required). -/
def vecRemoveCase (e : VectorEngine) (case_id : String) :
    VectorEngine × Bool :=
  (e, case_id ∈ e.case_ids)

/-- Model of faiss `IndexFlatIP.search`: exact nearest-neighbour search by
inner product, returning the top `k` `(score, index)` pairs with scores in
descending order. -/
def ipSearch (vectors : List (List Rat)) (q : List Rat) (k : Nat) :
    List (Rat × Nat) :=
  (sortDesc (fun p => p.1)
    (vectors.enum.map (fun p => (innerProduct q p.2, p.1)))).take k

/-- Embedding of `VectorSearchEngine.search`: encode the query, run the index search with
`min(k, len(case_ids))`, keep hits with an in-range index and
`score >= threshold`, translating indices to case ids. -/
def vecSearch (e : VectorEngine) (query : String) (k : Nat)
    (threshold : Rat) : List (String × Rat) :=
  if e.vectors.isEmpty then []
  else
    let qv := encodeText e query
    let hits := ipSearch e.vectors qv (min k e.case_ids.length)
    hits.filterMap (fun si =>
      if h : si.2 < e.case_ids.length then
        if threshold ≤ si.1 then some (e.case_ids[si.2], si.1) else none
      else none)

/-- Embedding of `VectorSearchEngine.find_similar_cases`: search on the case's own text
with `k + 1` (the comment says "+1 to exclude self", but no filtering of the
case's own id is performed). -/
def vecFindSimilar (e : VectorEngine) (c : SupportCase) (k : Nat)
    (threshold : Rat) : List (String × Rat) :=
  vecSearch e c.get_text_content (k + 1) threshold

/-- Embedding of `VectorSearchEngine.rebuild_index`: reset, then re-add every case. -/
def vecRebuild (e : VectorEngine) (cases : List SupportCase) : VectorEngine :=
  cases.foldl vecAddCase { e with vectors := [], case_ids := [] }

/-! ## `core.py` `SCPManager` (the orchestrator) -/

/-- The active search backend (`self.search_engine`); `vec` when
`self.vector_search_enabled` is true, `simple` otherwise. -/
inductive SearchEngine
  | vec (e : VectorEngine)
  | simple (cases : SimpleEngine)

/-- Engine dispatch for `search_engine.find_similar_cases`. -/
def SearchEngine.findSimilarCases :
    SearchEngine → SupportCase → Nat → Rat → List (String × Rat)
  | .vec e, c, k, t => vecFindSimilar e c k t
  | .simple d, c, k, t => simpleFindSimilar d c k t

/-- Engine dispatch for `search_engine.remove_case`. -/
def SearchEngine.removeCase : SearchEngine → String → SearchEngine × Bool
  | .vec e, case_id =>
      let r := vecRemoveCase e case_id
      (.vec r.1, r.2)
  | .simple d, case_id =>
      let r := simpleRemoveCase d case_id
      (.simple r.1, r.2)

/-- Embedding of `models.py` `CaseQuery` (defaults mirror the pydantic defaults). -/
structure CaseQuery where
  query : String
  limit : Nat := 10
  case_ids : Option (List String) := none
  status_filter : Option (List Status) := none
  priority_filter : Option (List Priority) := none
  date_from : Option Nat := none
  date_to : Option Nat := none
  tags : Option (List String) := none

/-- Embedding of `models.py` `SearchResult`. -/
structure SearchResult where
  case : SupportCase
  similarity_score : Rat
  matched_fields : List String := []
deriving DecidableEq

/-- Embedding of `core.py` `SCPManager` state: the memory store and the active engine. -/
structure SCPManager where
  memory : Store
  engine : SearchEngine

/-- The candidate-filter stage of `SCPManager.search_cases`: memory-store
filters (id allowlist, status, priority, text containment), then the date
filter, then the tag filter (`if query_obj.tags:` is skipped for `None` and
for an empty list; a case matches when any of its tag names is in the
requested set). -/
def filterCandidates (m : SCPManager) (q : CaseQuery) : List SupportCase :=
  let cases := memorySearch m.memory q.query q.status_filter
    q.priority_filter q.case_ids
  let cases :=
    if q.date_from.isSome || q.date_to.isSome then
      cases.filter (fun c =>
        (match q.date_from with
         | some d => decide (d ≤ c.created_at)
         | none => true)
        && (match q.date_to with
            | some d => decide (c.created_at ≤ d)
            | none => true))
    else cases
  let cases := truthyFilter q.tags
    (fun ts c => c.tags.any (fun t => decide (t.name ∈ ts))) cases
  cases

/-- Embedding of `SCPManager.search_cases`: filter candidates; when the vector backend is
active and the query carries text, rank them by the scores of a global
`search_engine.search` with `k = len(cases) if cases else 100` (threshold
left at its `0.0` default, missing ids scored `0.0`), stable-sorted
descending; otherwise give every candidate the uniform score `1.0` in filter
order. Truncate to the query's limit. -/
def searchCases (m : SCPManager) (q : CaseQuery) : List SearchResult :=
  let cases := filterCandidates m q
  let search_results : List SearchResult :=
    match m.engine with
    | .vec e =>
        if q.query ≠ "" then
          let vector_results :=
            vecSearch e q.query (if cases.isEmpty then 100 else cases.length) 0
          let score_map :=
            vector_results.foldl
              (fun (d : List (String × Rat)) p => dictInsert p.1 p.2 d) []
          let results : List SearchResult := cases.map (fun c =>
            { case := c,
              similarity_score := (dictGet score_map c.case_id).getD 0,
              matched_fields := [] })
          sortDesc (fun r => r.similarity_score) results
        else
          cases.map (fun c =>
            { case := c, similarity_score := 1, matched_fields := [] })
    | .simple _ =>
        cases.map (fun c =>
          { case := c, similarity_score := 1, matched_fields := [] })
  search_results.take q.limit

/-- Embedding of `SCPManager.find_similar_cases`: look the case up, delegate to the
engine, then translate ids back to stored cases, dropping the case's own id
and ids no longer present in the store. -/
def findSimilarCases (m : SCPManager) (case_id : String) (limit : Nat)
    (threshold : Rat) : List SearchResult :=
  match dictGet m.memory case_id with
  | none => []
  | some c =>
      let similar := m.engine.findSimilarCases c limit threshold
      similar.filterMap (fun r =>
        if r.1 ≠ case_id then
          match dictGet m.memory r.1 with
          | some sc => some { case := sc, similarity_score := r.2,
                              matched_fields := [] }
          | none => none
        else none)

/-- Embedding of `SCPManager.delete_case`: delete from memory; only on success also call
`search_engine.remove_case`. -/
def SCPManager.deleteCase (m : SCPManager) (case_id : String) :
    SCPManager × Bool :=
  let r := deleteCaseStore m.memory case_id
  if r.2 then
    let er := m.engine.removeCase case_id
    ({ memory := r.1, engine := er.1 }, true)
  else
    ({ m with memory := r.1 }, false)

/-- A case with every field as in `c` but with `updated_at` cleared: the
"compare on all fields except `updated_at`" view of a case. -/
def eraseUpdatedAt (c : SupportCase) : SupportCase :=
  { c with updated_at := 0 }

/-! ## Dictionary lemmas -/

theorem dictKeys_nil {V : Type} : dictKeys ([] : List (String × V)) = [] := rfl

theorem dictKeys_cons {V : Type} (p : String × V) (rest : List (String × V)) :
    dictKeys (p :: rest) = p.1 :: dictKeys rest := rfl

theorem dictGet_dictInsert_self {V : Type} (k : String) (v : V)
    (d : List (String × V)) : dictGet (dictInsert k v d) k = some v := by
  induction d with
  | nil => simp [dictInsert, dictGet]
  | cons p rest ih =>
      obtain ⟨k', v'⟩ := p
      by_cases h : k' = k
      · simp [dictInsert, h, dictGet]
      · simp [dictInsert, h, dictGet, ih]

theorem dictKeys_dictInsert {V : Type} (k : String) (v : V)
    (d : List (String × V)) :
    dictKeys (dictInsert k v d)
      = if k ∈ dictKeys d then dictKeys d else dictKeys d ++ [k] := by
  induction d with
  | nil => simp [dictInsert, dictKeys]
  | cons p rest ih =>
      obtain ⟨k', v'⟩ := p
      by_cases h : k' = k
      · simp [dictInsert, h, dictKeys_cons]
      · have hne : k ≠ k' := fun he => h he.symm
        by_cases hm : k ∈ dictKeys rest
        · simp [dictInsert, h, dictKeys_cons, hne, hm, ih]
        · simp [dictInsert, h, dictKeys_cons, hne, hm, ih]

theorem nodup_dictKeys_dictInsert {V : Type} {k : String} {v : V}
    {d : List (String × V)} (h : (dictKeys d).Nodup) :
    (dictKeys (dictInsert k v d)).Nodup := by
  rw [dictKeys_dictInsert]
  by_cases hm : k ∈ dictKeys d
  · simpa [hm] using h
  · simp only [hm, if_false]
    simpa [List.nodup_append] using ⟨h, hm⟩

theorem mem_dictKeys_dictInsert_self {V : Type} (k : String) (v : V)
    (d : List (String × V)) : k ∈ dictKeys (dictInsert k v d) := by
  rw [dictKeys_dictInsert]
  by_cases hm : k ∈ dictKeys d <;> simp [hm]

theorem mem_dictKeys_dictInsert_of_mem {V : Type} {k' : String}
    {d : List (String × V)} (k : String) (v : V) (h : k' ∈ dictKeys d) :
    k' ∈ dictKeys (dictInsert k v d) := by
  rw [dictKeys_dictInsert]
  by_cases hm : k ∈ dictKeys d <;> simp [hm, h]

theorem dictInsert_of_not_mem {V : Type} {k : String} {d : List (String × V)}
    (v : V) (h : k ∉ dictKeys d) : dictInsert k v d = d ++ [(k, v)] := by
  induction d with
  | nil => simp [dictInsert]
  | cons p rest ih =>
      obtain ⟨k', v'⟩ := p
      rw [dictKeys_cons] at h
      have h1 : ¬(k = k' ∨ k ∈ dictKeys rest) := by simpa using h
      have h2 : k' ≠ k := fun he => (not_or.1 h1).1 he.symm
      simp [dictInsert, h2, ih (not_or.1 h1).2]

theorem dictGet_eq_none_iff {V : Type} {d : List (String × V)} {k : String} :
    dictGet d k = none ↔ k ∉ dictKeys d := by
  induction d with
  | nil => simp [dictGet, dictKeys]
  | cons p rest ih =>
      obtain ⟨k', v'⟩ := p
      by_cases h : k' = k
      · simp [dictGet, h, dictKeys_cons]
      · have hne : k ≠ k' := fun he => h he.symm
        simp [dictGet, h, dictKeys_cons, hne, ih]

theorem dictGet_dictRemove_self {V : Type} (d : List (String × V))
    (k : String) : dictGet (dictRemove d k) k = none := by
  rw [dictGet_eq_none_iff]
  intro hm
  rcases List.mem_map.1 hm with ⟨p, hp, hpk⟩
  have := List.of_mem_filter hp
  simp [hpk] at this

/-! ## Claim theorems -/

/-- Claim C10: in the store's filter operation, passing an empty list for
the id allowlist (and likewise an empty status-filter or priority-filter
list) disables that predicate entirely, exactly as passing no list at all
does, rather than selecting the empty set. -/
theorem memorySearch_empty_list_filters_disabled :
    ∀ (store : Store) (query : String) (sf : Option (List Status))
      (pf : Option (List Priority)) (ids : Option (List String)),
      memorySearch store query sf pf (some [])
          = memorySearch store query sf pf none
      ∧ memorySearch store query (some []) pf ids
          = memorySearch store query none pf ids
      ∧ memorySearch store query sf (some []) ids
          = memorySearch store query sf none ids := by
  intro store query sf pf ids
  refine ⟨rfl, rfl, rfl⟩

/-- Claim C5: upsert is idempotent. After `upsert(c); upsert(c)` the record
read back by `get(c.case_id)` equals the one after a single `upsert(c)` (and
differs from the first upsert's result only in `updated_at`); an overwrite
never creates a duplicate entry (the key stays unique in the store). -/
theorem addCase_idempotent :
    ∀ (s : Store) (c : SupportCase) (t₁ t₂ : Nat),
      (dictKeys s).Nodup →
      getCase (addCase (addCase s c t₁) c t₂) c.case_id
          = getCase (addCase s c t₂) c.case_id
      ∧ (getCase (addCase (addCase s c t₁) c t₂) c.case_id).map eraseUpdatedAt
          = (getCase (addCase s c t₁) c.case_id).map eraseUpdatedAt
      ∧ (dictKeys (addCase (addCase s c t₁) c t₂)).Nodup
      ∧ (dictKeys (addCase (addCase s c t₁) c t₂)).count c.case_id = 1 := by
  intro s c t₁ t₂ hnd
  have h2 : (dictKeys (addCase (addCase s c t₁) c t₂)).Nodup :=
    nodup_dictKeys_dictInsert (nodup_dictKeys_dictInsert hnd)
  refine ⟨?_, ?_, h2, ?_⟩
  · simp only [getCase, addCase]
    rw [dictGet_dictInsert_self, dictGet_dictInsert_self]
  · simp only [getCase, addCase]
    rw [dictGet_dictInsert_self, dictGet_dictInsert_self]
    simp [eraseUpdatedAt]
  · exact List.count_eq_one_of_mem h2
      (mem_dictKeys_dictInsert_self c.case_id _ _)

/-- Witness for C5 at a concrete store and case. -/
theorem addCase_idempotent_witness :
    getCase (addCase (addCase [] { case_id := "W", title := "w" } 0)
        { case_id := "W", title := "w" } 1) "W"
      = getCase (addCase [] { case_id := "W", title := "w" } 1) "W" :=
  (addCase_idempotent [] { case_id := "W", title := "w" } 0 1 (by simp [dictKeys])).1

/-- Unfolding `importRecords`: the resulting store is the `add_case` fold
over the records that validate, and the count is the number of validating
records. -/
theorem importRecords_spec (recs : List Record) :
    ∀ (d : Store) (t : Nat),
      (importRecords d recs t).1
          = (recs.filterMap id).foldl (fun s c => addCase s c t) d
      ∧ (importRecords d recs t).2
          = (recs.filter (fun r => r.isSome)).length := by
  induction recs with
  | nil => intro d t; simp [importRecords]
  | cons r rest ih =>
      intro d t
      cases r with
      | none => simpa [importRecords] using ih d t
      | some c =>
          refine ⟨?_, ?_⟩
          · simpa [importRecords] using (ih (addCase d c t) t).1
          · simpa [importRecords] using (ih (addCase d c t) t).2

theorem mem_dictKeys_importRecords (recs : List Record) :
    ∀ (d : Store) (t : Nat) (k : String), k ∈ dictKeys d →
      k ∈ dictKeys (importRecords d recs t).1 := by
  induction recs with
  | nil => intro d t k hk; simpa [importRecords] using hk
  | cons r rest ih =>
      intro d t k hk
      cases r with
      | none => simpa [importRecords] using ih d t k hk
      | some c =>
          have h1 : k ∈ dictKeys (addCase d c t) := by
            simpa [addCase] using mem_dictKeys_dictInsert_of_mem _ _ hk
          simpa [importRecords] using ih _ t k h1

/-- Claim C7: batch import is non-fatal on malformed records. The returned
count is the number of records that validate, the resulting store is exactly
the `add_case` fold over the valid remainder (malformed records are skipped),
and every valid record's case id is present in the resulting store. -/
theorem importRecords_skips_malformed :
    ∀ (d : Store) (recs : List Record) (t : Nat),
      (importRecords d recs t).2 = (recs.filter (fun r => r.isSome)).length
      ∧ (importRecords d recs t).1
          = (recs.filterMap id).foldl (fun s c => addCase s c t) d
      ∧ ∀ c : SupportCase, some c ∈ recs →
          c.case_id ∈ dictKeys (importRecords d recs t).1 := by
  intro d recs t
  refine ⟨(importRecords_spec recs d t).2, (importRecords_spec recs d t).1, ?_⟩
  induction recs generalizing d with
  | nil => intro c hc; simp at hc
  | cons r rest ih =>
      intro c hc
      cases r with
      | none =>
          have hm : some c ∈ rest := by simpa using hc
          simpa [importRecords] using ih _ c hm
      | some c' =>
          rcases List.mem_cons.1 hc with he | hm
          · have hcc : c = c' := by injection he
            subst hcc
            have h1 : c.case_id ∈ dictKeys (addCase d c t) := by
              simpa [addCase] using
                mem_dictKeys_dictInsert_self c.case_id _ d
            simpa [importRecords] using
              mem_dictKeys_importRecords rest _ t _ h1
          · simpa [importRecords] using ih _ c hm

/-- A concrete import batch: two valid records around one malformed one. -/
def mixedBatch : List Record :=
  [some { case_id := "V1", title := "v1" }, none,
   some { case_id := "V2", title := "v2" }]

/-- Witness for C7: on the concrete mixed batch the returned count is the
number of valid records. -/
theorem importRecords_skips_malformed_witness :
    (importRecords [] mixedBatch 0).2
      = (mixedBatch.filter (fun r => r.isSome)).length :=
  (importRecords_skips_malformed [] mixedBatch 0).1

/-- Folding `add_case` over cases with pairwise-distinct fresh ids appends
the stamped records in order. -/
theorem foldl_addCase_fresh (t : Nat) :
    ∀ (cs : List SupportCase) (d : Store),
      (cs.map (fun c => c.case_id)).Nodup →
      (∀ c ∈ cs, c.case_id ∉ dictKeys d) →
      cs.foldl (fun s c => addCase s c t) d
        = d ++ cs.map (fun c => (c.case_id, { c with updated_at := t })) := by
  intro cs
  induction cs with
  | nil => intro d _ _; simp
  | cons c rest ih =>
      intro d hnd hfresh
      have hnd' := List.nodup_cons.1 hnd
      have h1 : addCase d c t
          = d ++ [(c.case_id, { c with updated_at := t })] := by
        simp [addCase, dictInsert_of_not_mem _ (hfresh c (by simp))]
      have hfresh' : ∀ c' ∈ rest, c'.case_id ∉
          dictKeys (d ++ [(c.case_id, { c with updated_at := t })]) := by
        intro c' hc'
        have hne : c'.case_id ≠ c.case_id := by
          intro he
          exact hnd'.1 (List.mem_map.2 ⟨c', hc', he⟩)
        have hd : c'.case_id ∉ dictKeys d :=
          hfresh c' (List.mem_cons_of_mem _ hc')
        have hk : dictKeys (d ++ [(c.case_id, { c with updated_at := t })])
            = dictKeys d ++ [c.case_id] := by simp [dictKeys]
        rw [hk]
        intro hmem
        rcases List.mem_append.1 hmem with hmem | hmem
        · exact hd hmem
        · exact hne (by simpa using hmem)
      rw [List.foldl_cons, h1, ih _ hnd'.2 hfresh']
      simp

theorem filterMap_id_snapshot (S : Store) :
    (snapshot S).filterMap id = S.map (fun p => p.2) := by
  induction S with
  | nil => rfl
  | cons p rest ih => simp [snapshot, List.filterMap] at ih ⊢; exact ih

/-- Claim C6: snapshot/restore round-trips. Restoring the snapshot of any
store state into a fresh store yields a store whose `list_all`, compared on
all fields except `updated_at`, is set-equal to the original's. -/
theorem snapshot_restore_roundtrip :
    ∀ (S : Store) (t : Nat),
      (dictKeys S).Nodup →
      (∀ p ∈ S, p.1 = p.2.case_id) →
      ∀ c : SupportCase,
        c ∈ (getAllCases (importRecords [] (snapshot S) t).1).map
              eraseUpdatedAt
          ↔ c ∈ (getAllCases S).map eraseUpdatedAt := by
  intro S t hnd hinv c
  have h1 : (snapshot S).filterMap id = S.map (fun p => p.2) :=
    filterMap_id_snapshot S
  have hids : ((S.map (fun p => p.2)).map (fun c => c.case_id)).Nodup := by
    rw [List.map_map]
    have he : S.map ((fun c => c.case_id) ∘ (fun p => p.2))
        = S.map (fun p => p.1) :=
      List.map_congr_left (fun p hp => (hinv p hp).symm)
    rw [he]
    exact hnd
  have h2 := (importRecords_spec (snapshot S) [] t).1
  rw [h1] at h2
  have h3 := foldl_addCase_fresh t (S.map (fun p => p.2)) [] hids
    (by intro c' _; simp [dictKeys])
  rw [h2, h3]
  simp only [List.nil_append, getAllCases, List.map_map]
  exact Iff.rfl

/-- Witness for C6 at a concrete two-case store. -/
theorem snapshot_restore_roundtrip_witness :
    eraseUpdatedAt { case_id := "A", title := "a" }
      ∈ (getAllCases (importRecords []
          (snapshot [("A", { case_id := "A", title := "a" }),
                     ("B", { case_id := "B", title := "b" })]) 7).1).map
          eraseUpdatedAt :=
  (snapshot_restore_roundtrip
    [("A", { case_id := "A", title := "a" }),
     ("B", { case_id := "B", title := "b" })] 7
    (by simp [dictKeys]) (by with_unfolding_all decide)
    (eraseUpdatedAt { case_id := "A", title := "a" })).2 (by with_unfolding_all decide)

theorem nodup_tagNames_add_tag {c : SupportCase} {n : String} {conf : Rat}
    {src : String} (h : (c.tags.map (fun t => t.name)).Nodup) :
    ((c.add_tag n conf src).tags.map (fun t => t.name)).Nodup := by
  simp only [SupportCase.add_tag, List.map_append]
  have hsub : List.Sublist
      ((c.tags.filter (fun t => t.name ≠ n)).map (fun t => t.name))
      (c.tags.map (fun t => t.name)) := (List.filter_sublist _).map _
  have h1 : ((c.tags.filter (fun t => t.name ≠ n)).map
      (fun t => t.name)).Nodup := List.Pairwise.sublist hsub h
  have h2 : n ∉ (c.tags.filter (fun t => t.name ≠ n)).map
      (fun t => t.name) := by
    intro hm
    rcases List.mem_map.1 hm with ⟨t, ht, htn⟩
    have h3 := List.of_mem_filter ht
    simp [htn] at h3
  simp only [ne_eq, decide_not] at h1 h2
  simp [List.nodup_append, h1, h2]

theorem nodup_tagNames_foldl (ops : List (String × Rat × String)) :
    ∀ c : SupportCase, (c.tags.map (fun t => t.name)).Nodup →
      (((ops.foldl (fun acc op => acc.add_tag op.1 op.2.1 op.2.2) c)).tags.map
          (fun t => t.name)).Nodup := by
  induction ops with
  | nil => intro c h; simpa using h
  | cons op rest ih =>
      intro c h
      simp only [List.foldl_cons]
      exact ih _ (nodup_tagNames_add_tag h)

/-- Claim C8: tag-name uniqueness is an invariant. Adding a tag whose name
matches an existing tag replaces that tag (the only tag with that name
afterwards is the new one, and tags with other names are untouched), and
after any sequence of `add_tag` operations the case never holds two tags
with the same name. -/
theorem add_tag_unique_names :
    ∀ (c : SupportCase) (n : String) (conf : Rat) (src : String)
      (ops : List (String × Rat × String)),
      (c.tags.map (fun t => t.name)).Nodup →
      ((c.add_tag n conf src).tags.filter (fun t => t.name = n)
          = [{ name := n, confidence := conf, source := src }])
      ∧ (∀ t ∈ (c.add_tag n conf src).tags, t.name ≠ n → t ∈ c.tags)
      ∧ (((ops.foldl (fun acc op => acc.add_tag op.1 op.2.1 op.2.2) c)).tags.map
            (fun t => t.name)).Nodup := by
  intro c n conf src ops hnd
  refine ⟨?_, ?_, nodup_tagNames_foldl ops c hnd⟩
  · simp only [SupportCase.add_tag, List.filter_append]
    have h0 : (c.tags.filter (fun t => t.name ≠ n)).filter
        (fun t => t.name = n) = [] := by
      refine List.filter_eq_nil_iff.2 ?_
      intro t ht
      have h3 := List.of_mem_filter ht
      simp at h3 ⊢
      exact h3
    rw [h0]
    simp
  · intro t ht htn
    simp only [SupportCase.add_tag, List.mem_append] at ht
    rcases ht with ht | ht
    · exact List.mem_of_mem_filter ht
    · simp at ht
      rw [ht] at htn
      simp at htn

/-- Witness for C8 at a concrete case: adding a tag named "dup" on a case
already tagged "dup" leaves exactly one tag of that name. -/
theorem add_tag_unique_names_witness :
    (SupportCase.add_tag
        { case_id := "W8", title := "w",
          tags := [{ name := "dup", confidence := 1/2, source := "auto" }] }
        "dup" 1 "manual").tags.filter (fun t => t.name = "dup")
      = [{ name := "dup", confidence := 1, source := "manual" }] :=
  (add_tag_unique_names
    { case_id := "W8", title := "w",
      tags := [{ name := "dup", confidence := 1/2, source := "auto" }] }
    "dup" 1 "manual" [] (by with_unfolding_all decide)).1

/-! ## Score bounds and ordering of the two engines -/

theorem pairwise_simpleSearch (eng : SimpleEngine) (q : String) (k : Nat)
    (t : Rat) :
    (simpleSearch eng q k t).Pairwise (fun a b => b.2 ≤ a.2) := by
  simp only [simpleSearch]
  split
  · simp
  · exact List.Pairwise.sublist (List.take_sublist _ _) (pairwise_sortDesc _ _)

theorem simpleSearch_bounds (eng : SimpleEngine) (q : String) (k : Nat)
    (t : Rat) :
    ∀ p ∈ simpleSearch eng q k t, t ≤ p.2 ∧ 0 ≤ p.2 ∧ p.2 ≤ 1 := by
  intro p hp
  simp only [simpleSearch] at hp
  split at hp
  · simp at hp
  · have hp1 := List.mem_of_mem_take hp
    rw [mem_sortDesc] at hp1
    rcases List.mem_filterMap.1 hp1 with ⟨entry, _, hf⟩
    split at hf
    · split at hf
      · next hu hts =>
          have hpe : p = (entry.1,
              ((tokens q ∩ tokens entry.2.get_text_content).card : Rat)
                / ((tokens q ∪ tokens entry.2.get_text_content).card :
                    Rat)) := by
            cases hf
            rfl
          subst hpe
          refine ⟨hts, div_nonneg (Nat.cast_nonneg _) (Nat.cast_nonneg _), ?_⟩
          refine div_le_one_of_le₀ (Nat.cast_le.2 ?_) (Nat.cast_nonneg _)
          exact Finset.card_le_card
            (Finset.inter_subset_left.trans Finset.subset_union_left)
      · cases hf
    · cases hf

theorem pairwise_ipSearch (vectors : List (List Rat)) (q : List Rat)
    (k : Nat) : (ipSearch vectors q k).Pairwise (fun a b => b.1 ≤ a.1) := by
  simp only [ipSearch]
  exact List.Pairwise.sublist (List.take_sublist _ _) (pairwise_sortDesc _ _)

theorem pairwise_vecSearch (e : VectorEngine) (q : String) (k : Nat)
    (t : Rat) :
    (vecSearch e q k t).Pairwise (fun a b => b.2 ≤ a.2) := by
  simp only [vecSearch]
  split
  · simp
  · refine List.Pairwise.filterMap _ ?_ (pairwise_ipSearch _ _ _)
    intro a a' hle b hb b' hb'
    split at hb
    · split at hb
      · split at hb'
        · split at hb'
          · simp only [Option.mem_def, Option.some_inj] at hb hb'
            rw [← hb, ← hb']
            exact hle
          · simp at hb'
        · simp at hb'
      · simp at hb
    · simp at hb

theorem vecSearch_score_ge (e : VectorEngine) (q : String) (k : Nat)
    (t : Rat) : ∀ p ∈ vecSearch e q k t, t ≤ p.2 := by
  intro p hp
  simp only [vecSearch] at hp
  split at hp
  · simp at hp
  · rcases List.mem_filterMap.1 hp with ⟨a, _, hf⟩
    split at hf
    · split at hf
      · next hts =>
          simp only [Option.some_inj] at hf
          rw [← hf]
          exact hts
      · cases hf
    · cases hf

/-! ## Concrete engines, stores and managers used by the evidence theorems -/

/-- A vector engine holding exactly one case `A` whose encoder maps every
text to the unit vector `[1]`. -/
def vengSelf : VectorEngine :=
  vecAddCase { encode := fun _ => [1], vectors := [], case_ids := [] }
    { case_id := "A", title := "hello" }

/-- A vector engine whose (unit-vector) encoder maps the query `"q"` to `[1]`
and every case text to `[-1]`, holding exactly one case `A`. -/
def vengNeg : VectorEngine :=
  vecAddCase { encode := fun s => if s = "q" then [1] else [-1],
               vectors := [], case_ids := [] }
    { case_id := "A", title := "hello" }

/-- A simple engine holding one case whose text is exactly `"hello"`. -/
def sengHello : SimpleEngine := [("A", { case_id := "A", title := "hello" })]

/-- The end-to-end scenario cases of the spec. -/
def caseDbTimeout : SupportCase := { case_id := "A", title := "database timeout" }

def caseApi503 : SupportCase := { case_id := "B", title := "API 503 errors" }

def caseDbPool : SupportCase :=
  { case_id := "C", title := "database connection pool exhausted" }

/-- The scenario store holding exactly A, B, C. -/
def memScenario : Store :=
  [("A", caseDbTimeout), ("B", caseApi503), ("C", caseDbPool)]

/-- The scenario manager under the lexical backend. -/
def mgrScenario : SCPManager :=
  { memory := memScenario, engine := .simple memScenario }

/-- The scenario query: free text `"database"`, no structured filters. -/
def qScenario : CaseQuery := { query := "database" }

/-- C4 setup: two cases whose texts contain the query text `"x"`. -/
def caseApple : SupportCase := { case_id := "A", title := "x apple" }

def caseBanana : SupportCase := { case_id := "B", title := "x banana best" }

/-- C4 setup: an encoder under which the query scores case `B` above `A`. -/
def encKTest : String → List Rat :=
  fun s => if s = "x" then [1, 1] else if s = "x apple" then [1, 0] else [2, 0]

/-- C4 setup: the vector engine after adding `A` then `B`. -/
def vengKTest : VectorEngine :=
  vecAddCase
    (vecAddCase { encode := encKTest, vectors := [], case_ids := [] }
      caseApple)
    caseBanana

/-- C4 setup: vector-backed manager holding `A` and `B`. -/
def mgrKTest : SCPManager :=
  { memory := [("A", caseApple), ("B", caseBanana)], engine := .vec vengKTest }

/-- C4 setup: a query whose id allowlist narrows the candidates to `A` only,
with free text `"x"`. -/
def qKTest : CaseQuery := { query := "x", case_ids := some ["A"] }

/-- Modelled from the claim's wording (C3): score each already-filtered
candidate by token-set Jaccard similarity against the query and sort by that
score (descending), truncating to the query's limit. -/
def lexicalRankByJaccard (m : SCPManager) (q : CaseQuery) :
    List SearchResult :=
  let cases := filterCandidates m q
  let scored : List SearchResult := cases.map (fun c =>
    { case := c,
      similarity_score := jaccard (tokens q.query) (tokens c.get_text_content),
      matched_fields := [] })
  (sortDesc (fun r => r.similarity_score) scored).take q.limit

/-- Modelled from the claim's wording (C4): run the global index search with
`k = max(candidate_set_size, 100)`, build a case_id-to-score map, give each
candidate the mapped score (0.0 when absent), sort candidates descending by
score, truncate to the limit. -/
def vecRankClaimed (m : SCPManager) (q : CaseQuery) : List SearchResult :=
  match m.engine with
  | .vec e =>
      let cases := filterCandidates m q
      let vector_results := vecSearch e q.query (max cases.length 100) 0
      let score_map :=
        vector_results.foldl
          (fun (d : List (String × Rat)) p => dictInsert p.1 p.2 d) []
      let results : List SearchResult := cases.map (fun c =>
        { case := c,
          similarity_score := (dictGet score_map c.case_id).getD 0,
          matched_fields := [] })
      (sortDesc (fun r => r.similarity_score) results).take q.limit
  | .simple _ => []

/-- The C4 claim with only the `k` amended to what the code passes:
`k = len(cases) if cases else 100`. -/
def vecRankAmended (m : SCPManager) (q : CaseQuery) : List SearchResult :=
  match m.engine with
  | .vec e =>
      let cases := filterCandidates m q
      let vector_results :=
        vecSearch e q.query (if cases.isEmpty then 100 else cases.length) 0
      let score_map :=
        vector_results.foldl
          (fun (d : List (String × Rat)) p => dictInsert p.1 p.2 d) []
      let results : List SearchResult := cases.map (fun c =>
        { case := c,
          similarity_score := (dictGet score_map c.case_id).getD 0,
          matched_fields := [] })
      (sortDesc (fun r => r.similarity_score) results).take q.limit
  | .simple _ => []

/-- Claim C1 is wrong about the code (code bug): on the embedding variant,
`find_similar_cases` for a stored case returns the case's own id — here the
index holds exactly case `A` and `find_similar(A, k=5, threshold=0.1)`
returns `A` itself with score 1 (the method requests `k+1` hits "to exclude
self" but never filters the case's own id out). -/
theorem vecFindSimilar_returns_self :
    vecFindSimilar vengSelf { case_id := "A", title := "hello" } 5 (1/10)
      = [("A", 1)]
    ∧ ("A", (1 : Rat)) ∈
        vecFindSimilar vengSelf { case_id := "A", title := "hello" } 5 (1/10) := by
  refine ⟨by with_unfolding_all decide, by with_unfolding_all decide⟩

/-- Counterexample to claim C2 as stated: on the embedding variant, returned
scores are raw inner products filtered only by the caller's threshold — with
unit embedding vectors and threshold `-1`, `search` returns the score `-1`,
which lies outside `[0.0, 1.0]`. -/
theorem vecSearch_score_out_of_bounds :
    ("A", (-1 : Rat)) ∈ vecSearch vengNeg "q" 1 (-1)
    ∧ ¬((0 : Rat) ≤ -1) := by
  refine ⟨by with_unfolding_all decide, by norm_num⟩

/-- Claim C2, amended: on both variants every returned score is at least the
caller's threshold and results are sorted non-increasing by score; the
lexical variant's scores moreover lie in `[0.0, 1.0]` (the embedding
variant's scores are unclamped inner products). -/
theorem search_score_bounds_amended :
    (∀ (eng : SimpleEngine) (q : String) (k : Nat) (t : Rat),
      (simpleSearch eng q k t).Pairwise (fun a b => b.2 ≤ a.2)
      ∧ ∀ p ∈ simpleSearch eng q k t, t ≤ p.2 ∧ 0 ≤ p.2 ∧ p.2 ≤ 1)
    ∧ (∀ (e : VectorEngine) (q : String) (k : Nat) (t : Rat),
      (vecSearch e q k t).Pairwise (fun a b => b.2 ≤ a.2)
      ∧ ∀ p ∈ vecSearch e q k t, t ≤ p.2) :=
  ⟨fun eng q k t => ⟨pairwise_simpleSearch eng q k t, simpleSearch_bounds eng q k t⟩,
   fun e q k t => ⟨pairwise_vecSearch e q k t, vecSearch_score_ge e q k t⟩⟩

/-- Witness for amended C2 at a concrete lexical search hit. -/
theorem search_score_bounds_amended_witness :
    (0 : Rat) ≤ (("A", (1 : Rat)) : String × Rat).2
    ∧ (("A", (1 : Rat)) : String × Rat).2 ≤ 1 :=
  let h := (search_score_bounds_amended.1 sengHello "hello" 5 0).2
    ("A", 1) (by with_unfolding_all decide)
  ⟨h.2.1, h.2.2⟩

/-- Counterexample to claim C3 as stated: under the lexical backend the
orchestrator does not Jaccard-score the filtered candidates — on the
scenario store, `search("database")` differs from the Jaccard ranking the
claim describes (the code returns both survivors with the uniform score 1,
where Jaccard scoring would yield 1/2 and 1/4). -/
theorem searchCases_not_jaccard_ranked :
    searchCases mgrScenario qScenario
        ≠ lexicalRankByJaccard mgrScenario qScenario
    ∧ jaccard (tokens qScenario.query) (tokens caseDbTimeout.get_text_content)
        = 1/2 := by
  refine ⟨by with_unfolding_all decide, by with_unfolding_all decide⟩

/-- Claim C3, amended: under the lexical backend the store pre-filters
candidates by case-insensitive substring containment of the query and the
orchestrator assigns every surviving candidate the uniform score 1.0 in
filter order (no Jaccard ranking); on the scenario store,
`search("database")` returns exactly A and C (each with score 1.0) and
excludes B. -/
theorem searchCases_lexical_uniform_scores :
    (∀ (mem : Store) (eng : SimpleEngine) (q : CaseQuery) (r : SearchResult),
      r ∈ searchCases { memory := mem, engine := .simple eng } q →
        r.similarity_score = 1)
    ∧ (searchCases mgrScenario qScenario).map
        (fun r => (r.case.case_id, r.similarity_score)) = [("A", 1), ("C", 1)] := by
  constructor
  · intro mem eng q r hr
    simp only [searchCases] at hr
    have hr1 := List.mem_of_mem_take hr
    rcases List.mem_map.1 hr1 with ⟨c, _, hc⟩
    rw [← hc]
  · decide

/-- Witness for amended C3: the first scenario result indeed carries the
uniform score 1. -/
theorem searchCases_lexical_uniform_scores_witness :
    ({ case := caseDbTimeout, similarity_score := 1,
       matched_fields := [] } : SearchResult).similarity_score = 1 :=
  searchCases_lexical_uniform_scores.1 memScenario memScenario qScenario
    { case := caseDbTimeout, similarity_score := 1, matched_fields := [] }
    (by with_unfolding_all decide)

/-- Counterexample to claim C4 as stated: the orchestrator passes
`k = len(cases) if cases else 100` to the global index search, not
`max(candidate_set_size, 100)` — on a store where the allowlist narrows the
candidates to `A` but the index ranks `B` first, the code's `k = 1` search
misses `A` (scoring it 0.0), while the claimed `k = max(1, 100)` would have
scored it 1. -/
theorem searchCases_k_not_max_100 :
    searchCases mgrKTest qKTest ≠ vecRankClaimed mgrKTest qKTest
    ∧ (searchCases mgrKTest qKTest).map
        (fun r => (r.case.case_id, r.similarity_score)) = [("A", 0)]
    ∧ (vecRankClaimed mgrKTest qKTest).map
        (fun r => (r.case.case_id, r.similarity_score)) = [("A", 1)] := by
  refine ⟨by with_unfolding_all decide, by with_unfolding_all decide, by with_unfolding_all decide⟩

/-- Claim C4, amended: when the query carries free text and the backend is
embedding-based, the orchestrator runs the global index search with
`k = len(candidates)` when the candidate set is nonempty and `k = 100` when
it is empty, assigns each candidate the score from the id-to-score map
(0.0 when absent), and sorts candidates descending by score, truncating to
the limit. -/
theorem searchCases_vec_rank_amended :
    ∀ (mem : Store) (e : VectorEngine) (q : CaseQuery),
      q.query ≠ "" →
      searchCases { memory := mem, engine := .vec e } q
        = vecRankAmended { memory := mem, engine := .vec e } q := by
  intro mem e q hq
  simp only [searchCases, vecRankAmended]
  rw [if_pos hq]

/-- Witness for amended C4 at the concrete vector-backed manager. -/
theorem searchCases_vec_rank_amended_witness :
    searchCases mgrKTest qKTest = vecRankAmended mgrKTest qKTest :=
  searchCases_vec_rank_amended [("A", caseApple), ("B", caseBanana)]
    vengKTest qKTest (by with_unfolding_all decide)

/-! ## Deletion propagates to search (C9) -/

theorem truthyFilter_subset {β : Type} (o : Option (List β))
    (p : List β → SupportCase → Bool) (cases : List SupportCase) :
    ∀ c ∈ truthyFilter o p cases, c ∈ cases := by
  intro c hc
  cases o with
  | none => exact hc
  | some l =>
      simp only [truthyFilter] at hc
      split at hc
      · exact hc
      · exact List.mem_of_mem_filter hc

theorem mem_memorySearch (store : Store) (query : String)
    (sf : Option (List Status)) (pf : Option (List Priority))
    (ids : Option (List String)) :
    ∀ c ∈ memorySearch store query sf pf ids, c ∈ getAllCases store := by
  intro c hc
  simp only [memorySearch] at hc
  split at hc
  · exact truthyFilter_subset _ _ _ _
      (truthyFilter_subset _ _ _ _ (truthyFilter_subset _ _ _ _ hc))
  · exact truthyFilter_subset _ _ _ _
      (truthyFilter_subset _ _ _ _
        (truthyFilter_subset _ _ _ _ (List.mem_of_mem_filter hc)))

theorem mem_filterCandidates (m : SCPManager) (q : CaseQuery) :
    ∀ c ∈ filterCandidates m q, c ∈ getAllCases m.memory := by
  intro c hc
  simp only [filterCandidates] at hc
  have hc1 := truthyFilter_subset _ _ _ _ hc
  split at hc1
  · exact mem_memorySearch _ _ _ _ _ _ (List.mem_of_mem_filter hc1)
  · exact mem_memorySearch _ _ _ _ _ _ hc1

theorem mem_searchCases (m : SCPManager) (q : CaseQuery) :
    ∀ r ∈ searchCases m q, r.case ∈ getAllCases m.memory := by
  intro r hr
  simp only [searchCases] at hr
  have hr1 := List.mem_of_mem_take hr
  rcases m with ⟨mem, eng⟩
  cases eng with
  | vec e =>
      simp only at hr1
      split at hr1
      · rw [mem_sortDesc] at hr1
        rcases List.mem_map.1 hr1 with ⟨c, hc, hrc⟩
        rw [← hrc]
        exact mem_filterCandidates _ _ _ hc
      · rcases List.mem_map.1 hr1 with ⟨c, hc, hrc⟩
        rw [← hrc]
        exact mem_filterCandidates _ _ _ hc
  | simple d =>
      rcases List.mem_map.1 hr1 with ⟨c, hc, hrc⟩
      rw [← hrc]
      exact mem_filterCandidates _ _ _ hc

/-- Claim C9: after `delete("A")`, `get("A")` returns absent and no
subsequent orchestrator search, under either backend, includes case `A` in
its results. (The hypothesis is the store's key invariant: every entry is
stored under its own case id.) -/
theorem delete_then_search_excludes :
    ∀ (m : SCPManager) (q : CaseQuery),
      (∀ p ∈ m.memory, p.1 = p.2.case_id) →
      getCase (m.deleteCase "A").1.memory "A" = none
      ∧ ∀ r ∈ searchCases (m.deleteCase "A").1 q, r.case.case_id ≠ "A" := by
  intro m q hinv
  have hmem : (m.deleteCase "A").1.memory = (deleteCaseStore m.memory "A").1 := by
    simp only [SCPManager.deleteCase]
    split <;> rfl
  have hnone : getCase (deleteCaseStore m.memory "A").1 "A" = none := by
    simp only [deleteCaseStore, getCase]
    split
    · exact dictGet_dictRemove_self _ _
    · next h =>
        cases hg : dictGet m.memory "A" with
        | none => rfl
        | some v => rw [hg] at h; simp at h
  refine ⟨by rw [hmem]; exact hnone, ?_⟩
  intro r hr
  have h1 : r.case ∈ getAllCases (m.deleteCase "A").1.memory :=
    mem_searchCases _ _ r hr
  rw [hmem] at h1
  rcases List.mem_map.1 h1 with ⟨p, hp, hpc⟩
  have hA : p.1 ≠ "A" := by
    simp only [deleteCaseStore] at hp
    split at hp
    · have h3 : p ∈ m.memory ∧ ¬p.1 = "A" := by simpa [dictRemove] using hp
      exact h3.2
    · next h =>
        intro he
        have hgn : dictGet m.memory "A" = none := by
          cases hg : dictGet m.memory "A" with
          | none => rfl
          | some v => rw [hg] at h; simp at h
        have hAmem : "A" ∈ dictKeys m.memory := by
          rw [← he]
          exact List.mem_map.2 ⟨p, hp, rfl⟩
        exact (dictGet_eq_none_iff.1 hgn) hAmem
  have hp' : p ∈ m.memory := by
    simp only [deleteCaseStore] at hp
    split at hp
    · have h3 : p ∈ m.memory ∧ ¬p.1 = "A" := by simpa [dictRemove] using hp
      exact h3.1
    · exact hp
  intro hcontra
  exact hA (by rw [hinv p hp', hpc, hcontra])

/-- Witness for C9 at the concrete scenario manager. -/
theorem delete_then_search_excludes_witness :
    getCase (mgrScenario.deleteCase "A").1.memory "A" = none :=
  (delete_then_search_excludes mgrScenario qScenario
    (by with_unfolding_all decide)).1

end SCP
